import Mathlib

/-!
Verification development for the presence-aware connection hub and fan-out
router of the Connect chat application.  The definitions below are shallow
embeddings of the corresponding TypeScript source: the `userSockets` map and
Socket.IO handlers of the MongoDB server file, the `connectedClients` map and
handlers of `server/routes.ts`, the message fan-out of the
`POST /api/conversations/:id/messages` route, and the group model of
`server/models/Group.ts`.
-/

namespace ConnectChat

/-- Association-list model of a JavaScript `Map` with `String` keys.
`Map.prototype.set` replaces the value in place when the key is present and
appends a fresh entry otherwise. -/
def mapSet {α : Type} (m : List (String × α)) (k : String) (v : α) : List (String × α) :=
  match m with
  | [] => [(k, v)]
  | (k', v') :: rest => if k' = k then (k, v) :: rest else (k', v') :: mapSet rest k v

/-- Model of `Map.prototype.get`: the value stored under the first entry with
the key, if any. -/
def mapGet {α : Type} (m : List (String × α)) (k : String) : Option α :=
  match m with
  | [] => none
  | (k', v') :: rest => if k' = k then some v' else mapGet rest k

/-- Model of `Map.prototype.delete`: removes the first (in a real `Map`, the
unique) entry with the key. -/
def mapDelete {α : Type} (m : List (String × α)) (k : String) : List (String × α) :=
  match m with
  | [] => []
  | (k', v') :: rest => if k' = k then rest else (k', v') :: mapDelete rest k

/-- Keys of an association list. -/
def keysOf {α : Type} (m : List (String × α)) : List String :=
  m.map Prod.fst

@[simp] theorem keysOf_nil {α : Type} : keysOf ([] : List (String × α)) = [] := rfl

@[simp] theorem keysOf_cons {α : Type} (p : String × α) (tl : List (String × α)) :
    keysOf (p :: tl) = p.1 :: keysOf tl := rfl

theorem keysOf_eq_map {α : Type} (m : List (String × α)) : keysOf m = m.map Prod.fst := rfl

theorem mapSet_cons_eq {α : Type} (x : String) (y v : α) (tl : List (String × α)) :
    mapSet ((x, y) :: tl) x v = (x, v) :: tl := by
  simp [mapSet]

theorem mapSet_cons_ne {α : Type} {x k : String} (y v : α) (tl : List (String × α))
    (h : x ≠ k) : mapSet ((x, y) :: tl) k v = (x, y) :: mapSet tl k v := by
  simp [mapSet, h]

theorem mapDelete_cons_eq {α : Type} (x : String) (y : α) (tl : List (String × α)) :
    mapDelete ((x, y) :: tl) x = tl := by
  simp [mapDelete]

theorem mapDelete_cons_ne {α : Type} {x k : String} (y : α) (tl : List (String × α))
    (h : x ≠ k) : mapDelete ((x, y) :: tl) k = (x, y) :: mapDelete tl k := by
  simp [mapDelete, h]

theorem mapGet_eq_none_of_not_mem {α : Type} {m : List (String × α)} {k : String}
    (h : k ∉ keysOf m) : mapGet m k = none := by
  induction m with
  | nil => rfl
  | cons hd tl ih =>
    obtain ⟨a, b⟩ := hd
    simp only [keysOf_cons, List.mem_cons] at h
    push_neg at h
    have h1 : ¬ a = k := fun hh => h.1 hh.symm
    simp [mapGet, h1, ih h.2]

theorem mapGet_mapSet {α : Type} (m : List (String × α)) (k k' : String) (v : α) :
    mapGet (mapSet m k v) k' = if k = k' then some v else mapGet m k' := by
  induction m with
  | nil => rfl
  | cons hd tl ih =>
    obtain ⟨a, b⟩ := hd
    by_cases hak : a = k
    · subst hak
      by_cases hkk : a = k'
      · simp [mapSet, mapGet, hkk]
      · simp [mapSet, mapGet, hkk]
    · by_cases hak' : a = k'
      · subst hak'
        have hk : ¬ k = a := fun hh => hak hh.symm
        simp [mapSet, mapGet, hak, hk]
      · simp [mapSet, mapGet, hak, hak', ih]

theorem mapGet_mapSet_self {α : Type} (m : List (String × α)) (k : String) (v : α) :
    mapGet (mapSet m k v) k = some v := by
  simp [mapGet_mapSet]

theorem mapGet_mapSet_ne {α : Type} (m : List (String × α)) {k k' : String} (v : α)
    (h : k ≠ k') : mapGet (mapSet m k v) k' = mapGet m k' := by
  simp [mapGet_mapSet, h]

theorem mem_keysOf_mapSet {α : Type} {m : List (String × α)} {k a : String} {v : α}
    (h : a ∈ keysOf (mapSet m k v)) : a ∈ keysOf m ∨ a = k := by
  induction m with
  | nil =>
    simp [mapSet] at h
    exact Or.inr h
  | cons hd tl ih =>
    obtain ⟨x, y⟩ := hd
    by_cases hxk : x = k
    · subst hxk
      rw [mapSet_cons_eq] at h
      simp only [keysOf_cons, List.mem_cons] at h ⊢
      rcases h with h1 | h1
      · exact Or.inr h1
      · exact Or.inl (Or.inr h1)
    · rw [mapSet_cons_ne y v tl hxk] at h
      simp only [keysOf_cons, List.mem_cons] at h ⊢
      rcases h with h1 | h1
      · exact Or.inl (Or.inl h1)
      · rcases ih h1 with h2 | h2
        · exact Or.inl (Or.inr h2)
        · exact Or.inr h2

theorem nodup_keysOf_mapSet {α : Type} {m : List (String × α)} (k : String) (v : α)
    (h : (keysOf m).Nodup) : (keysOf (mapSet m k v)).Nodup := by
  induction m with
  | nil => simp [mapSet]
  | cons hd tl ih =>
    obtain ⟨x, y⟩ := hd
    simp only [keysOf_cons, List.nodup_cons] at h
    by_cases hxk : x = k
    · subst hxk
      rw [mapSet_cons_eq]
      simp only [keysOf_cons, List.nodup_cons]
      exact ⟨h.1, h.2⟩
    · rw [mapSet_cons_ne y v tl hxk]
      simp only [keysOf_cons, List.nodup_cons]
      refine ⟨fun hmem => ?_, ih h.2⟩
      rcases mem_keysOf_mapSet hmem with h' | h'
      · exact h.1 h'
      · exact hxk h'

theorem keysOf_mapDelete_sublist {α : Type} (m : List (String × α)) (k : String) :
    List.Sublist (keysOf (mapDelete m k)) (keysOf m) := by
  induction m with
  | nil => simp [mapDelete]
  | cons hd tl ih =>
    obtain ⟨x, y⟩ := hd
    by_cases hxk : x = k
    · simp only [mapDelete, if_pos hxk, keysOf_cons]
      exact List.Sublist.cons x (List.Sublist.refl _)
    · simp only [mapDelete, if_neg hxk, keysOf_cons]
      exact List.Sublist.cons₂ x ih

theorem nodup_keysOf_mapDelete {α : Type} {m : List (String × α)} (k : String)
    (h : (keysOf m).Nodup) : (keysOf (mapDelete m k)).Nodup :=
  List.Nodup.sublist (keysOf_mapDelete_sublist m k) h

theorem mapGet_mapDelete {α : Type} {m : List (String × α)} (k k' : String)
    (h : (keysOf m).Nodup) :
    mapGet (mapDelete m k) k' = if k = k' then none else mapGet m k' := by
  induction m with
  | nil => simp [mapDelete, mapGet]
  | cons hd tl ih =>
    obtain ⟨x, y⟩ := hd
    simp only [keysOf_cons, List.nodup_cons] at h
    by_cases hxk : x = k
    · subst hxk
      by_cases hkk : x = k'
      · subst hkk
        simp [mapDelete, mapGet, mapGet_eq_none_of_not_mem h.1]
      · simp [mapDelete, mapGet, hkk]
    · by_cases hxk' : x = k'
      · subst hxk'
        have hkk : ¬ k = x := fun hh => hxk hh.symm
        simp [mapDelete, mapGet, hxk, hkk]
      · simp [mapDelete, mapGet, hxk, hxk', ih h.2]

theorem mapGet_mapDelete_self {α : Type} {m : List (String × α)} (k : String)
    (h : (keysOf m).Nodup) : mapGet (mapDelete m k) k = none := by
  simp [mapGet_mapDelete k k h]

theorem mapGet_mapDelete_ne {α : Type} {m : List (String × α)} {k k' : String}
    (hne : k ≠ k') (h : (keysOf m).Nodup) :
    mapGet (mapDelete m k) k' = mapGet m k' := by
  simp [mapGet_mapDelete k k' h, hne]

theorem mem_mapSet_nodup {α : Type} {m : List (String × α)} {k : String} {v : α}
    {p : String × α} (hn : (keysOf m).Nodup) (h : p ∈ mapSet m k v) :
    p = (k, v) ∨ (p ∈ m ∧ p.1 ≠ k) := by
  induction m with
  | nil =>
    simp [mapSet] at h
    exact Or.inl h
  | cons hd tl ih =>
    obtain ⟨x, y⟩ := hd
    simp only [keysOf_cons, List.nodup_cons] at hn
    by_cases hxk : x = k
    · subst hxk
      rw [mapSet_cons_eq] at h
      rcases List.mem_cons.mp h with h1 | h1
      · exact Or.inl h1
      · refine Or.inr ⟨List.mem_cons_of_mem _ h1, fun hpk => hn.1 ?_⟩
        rw [keysOf_eq_map, ← hpk]
        exact List.mem_map_of_mem Prod.fst h1
    · rw [mapSet_cons_ne y v tl hxk] at h
      rcases List.mem_cons.mp h with h1 | h1
      · refine Or.inr ⟨?_, ?_⟩
        · rw [h1]; exact List.mem_cons_self _ _
        · rw [h1]; exact hxk
      · rcases ih hn.2 h1 with h2 | h2
        · exact Or.inl h2
        · exact Or.inr ⟨List.mem_cons_of_mem _ h2.1, h2.2⟩

theorem mem_mapDelete {α : Type} {m : List (String × α)} {k : String}
    {p : String × α} (h : p ∈ mapDelete m k) : p ∈ m := by
  induction m with
  | nil => simp [mapDelete] at h
  | cons hd tl ih =>
    obtain ⟨x, y⟩ := hd
    by_cases hxk : x = k
    · simp only [mapDelete, if_pos hxk] at h
      exact List.mem_cons_of_mem _ h
    · simp only [mapDelete, if_neg hxk, List.mem_cons] at h
      rcases h with h1 | h1
      · rw [h1]; exact List.mem_cons_self _ _
      · exact List.mem_cons_of_mem _ (ih h1)

theorem mapGet_eq_some_mem {α : Type} {m : List (String × α)} {k : String} {v : α}
    (h : mapGet m k = some v) : (k, v) ∈ m := by
  induction m with
  | nil => simp [mapGet] at h
  | cons hd tl ih =>
    obtain ⟨x, y⟩ := hd
    by_cases hxk : x = k
    · subst hxk
      have hv : y = v := by simpa [mapGet] using h
      rw [← hv]
      exact List.mem_cons_self _ _
    · simp only [mapGet, if_neg hxk] at h
      exact List.mem_cons_of_mem _ (ih h)

theorem mem_nodup_mapGet {α : Type} {m : List (String × α)} {p : String × α}
    (hn : (keysOf m).Nodup) (h : p ∈ m) : mapGet m p.1 = some p.2 := by
  induction m with
  | nil => simp at h
  | cons hd tl ih =>
    obtain ⟨x, y⟩ := hd
    simp only [keysOf_cons, List.nodup_cons] at hn
    rcases List.mem_cons.mp h with h1 | h1
    · rw [h1]
      simp [mapGet]
    · have hpx : ¬ x = p.1 := by
        intro hh
        refine hn.1 ?_
        rw [keysOf_eq_map, hh]
        exact List.mem_map_of_mem Prod.fst h1
      simp only [mapGet, if_neg hpx]
      exact ih hn.2 h1

/-- Persisted user presence fields set by `updateUserOnlineStatus` in
`server/models/User.ts` (`isOnline`, `lastSeen`); time is modelled by a
`Nat` clock. -/
structure UserRecord where
  isOnline : Bool
  lastSeen : Nat
deriving DecidableEq

/-- Two-party conversation as stored by `server/models/Conversation.ts`. -/
structure Conversation where
  participant1Id : String
  participant2Id : String
deriving DecidableEq

/-- Group document from `server/models/Group.ts` (only the fields the claims
concern: `creatorId` and `memberIds`). -/
structure Group where
  creatorId : String
  memberIds : List String
deriving DecidableEq

/-- Message document created by `createMessage` for the send-message route. -/
structure Message where
  conversationId : Option String
  groupId : Option String
  senderId : String
  content : String
deriving DecidableEq

/-- Server-to-client events relevant to the claims. -/
inductive SEvent where
  | newMessage (message : Message)
  | typingEv (userId conversationId : String) (isTyping : Bool)
  | userStatus (userId : String) (isOnline : Bool) (lastSeen : Nat)
deriving DecidableEq

/-- Observable outbound actions of the socket layer.  `deliver r sid ev`
records `io.to(sid).emit(ev)` performed while fanning out to recipient `r`
(`const socketId = userSockets.get(recipientId); if (socketId) io.to(socketId).emit(...)`);
`broadcastExcept sid ev` records `socket.broadcast.emit(ev)` from socket
`sid`. -/
inductive Emission where
  | deliver (recipientId socketId : String) (event : SEvent)
  | broadcastExcept (socketId : String) (event : SEvent)
deriving DecidableEq

/-- State of the MongoDB server file's socket layer: the open sockets with
their per-connection `userId` closure variable (`null` before `auth`), the
module-level `userSockets : Map<string, string>` registry, the persisted
users collection, and the conversation/group stores read by the recipient
lookups.  `clock` models the passage of time (`new Date()`). -/
structure HubState where
  conns : List (String × Option String)
  userSockets : List (String × String)
  users : List (String × UserRecord)
  conversations : List (String × Conversation)
  groups : List (String × Group)
  clock : Nat
deriving DecidableEq

/-- Embedding of `updateUserOnlineStatus` (`server/models/User.ts`):
`findOneAndUpdate` sets `isOnline` and `lastSeen := now` when the user
exists and does nothing otherwise. -/
def updateUserOnlineStatus (users : List (String × UserRecord)) (uid : String)
    (isOnline : Bool) (now : Nat) : List (String × UserRecord) :=
  match mapGet users uid with
  | none => users
  | some _ => mapSet users uid ⟨isOnline, now⟩

/-- The fan-out loop shared by the send-message route and the typing
handlers: for each recipient id, look the recipient up in `userSockets` and
emit to that socket when present, silently skipping absent recipients. -/
def fanOut (userSockets : List (String × String)) (recipientIds : List String)
    (event : SEvent) : List Emission :=
  recipientIds.filterMap fun r =>
    (mapGet userSockets r).map fun sid => Emission.deliver r sid event

/-- Handler for the `auth` socket event: sets the connection's `userId`
closure, `userSockets.set(userId, socket.id)`, persists online status, and
`socket.broadcast.emit('userStatus', { isOnline: true })`. -/
def onAuth (st : HubState) (sid uid : String) : HubState × List Emission :=
  match mapGet st.conns sid with
  | none => (st, [])
  | some _ =>
    ({ st with
        conns := mapSet st.conns sid (some uid),
        userSockets := mapSet st.userSockets uid sid,
        users := updateUserOnlineStatus st.users uid true st.clock },
     [Emission.broadcastExcept sid (SEvent.userStatus uid true st.clock)])

/-- Handler for the `disconnect` socket event: when the connection had
authenticated (`if (userId)`), it runs `userSockets.delete(userId)`,
persists offline status, and broadcasts `userStatus` offline — with no check
that this socket is still the registered one for that user. -/
def onDisconnect (st : HubState) (sid : String) : HubState × List Emission :=
  match mapGet st.conns sid with
  | none => (st, [])
  | some none => ({ st with conns := mapDelete st.conns sid }, [])
  | some (some uid) =>
    ({ st with
        conns := mapDelete st.conns sid,
        userSockets := mapDelete st.userSockets uid,
        users := updateUserOnlineStatus st.users uid false st.clock },
     [Emission.broadcastExcept sid (SEvent.userStatus uid false st.clock)])

/-- Handler for the `typing` socket event: drops the event when the
connection has not authenticated (`if (!userId) return`), otherwise resolves
the recipients (conversation first, then group) and fans the `typing` event
out with the payload's `isTyping` flag. -/
def onTyping (st : HubState) (sid conversationId : String) (isTyping : Bool) :
    HubState × List Emission :=
  match mapGet st.conns sid with
  | some (some uid) =>
    let recipientIds :=
      match mapGet st.conversations conversationId with
      | some conversation =>
        [if conversation.participant1Id = uid then conversation.participant2Id
         else conversation.participant1Id]
      | none =>
        match mapGet st.groups conversationId with
        | some group => group.memberIds.filter fun m => m ≠ uid
        | none => []
    (st, fanOut st.userSockets recipientIds (SEvent.typingEv uid conversationId isTyping))
  | _ => (st, [])

/-- Handler for the `stopTyping` socket event, translated separately from its
own (duplicated) source: it resolves recipients the same way and fans out a
`typing` event with `isTyping: false`. -/
def onStopTyping (st : HubState) (sid conversationId : String) :
    HubState × List Emission :=
  match mapGet st.conns sid with
  | some (some uid) =>
    let recipientIds :=
      match mapGet st.conversations conversationId with
      | some conversation =>
        [if conversation.participant1Id = uid then conversation.participant2Id
         else conversation.participant1Id]
      | none =>
        match mapGet st.groups conversationId with
        | some group => group.memberIds.filter fun m => m ≠ uid
        | none => []
    (st, fanOut st.userSockets recipientIds (SEvent.typingEv uid conversationId false))
  | _ => (st, [])

/-- Handler for the `messageRead` socket event: drops the event when the
connection has not authenticated; when authenticated the handler only logs
(read receipts are handled by the REST API), so it emits nothing either
way. -/
def onMessageRead (st : HubState) (sid messageId conversationId : String) :
    HubState × List Emission :=
  match mapGet st.conns sid with
  | some (some _) => (st, [])
  | _ => (st, [])

/-- Inbound socket-layer operations. -/
inductive SocketOp where
  | connect (socketId : String)
  | auth (socketId userId : String)
  | disconnect (socketId : String)
  | typing (socketId conversationId : String) (isTyping : Bool)
  | stopTyping (socketId conversationId : String)
  | messageRead (socketId messageId conversationId : String)
deriving DecidableEq

/-- One step of the socket layer; the clock advances on every step. -/
def step (st : HubState) (op : SocketOp) : HubState × List Emission :=
  let r :=
    match op with
    | SocketOp.connect sid => ({ st with conns := mapSet st.conns sid none }, [])
    | SocketOp.auth sid uid => onAuth st sid uid
    | SocketOp.disconnect sid => onDisconnect st sid
    | SocketOp.typing sid cid t => onTyping st sid cid t
    | SocketOp.stopTyping sid cid => onStopTyping st sid cid
    | SocketOp.messageRead sid mid cid => onMessageRead st sid mid cid
  ({ r.1 with clock := st.clock + 1 }, r.2)

/-- Run a sequence of socket operations, discarding the emissions. -/
def runTrace (st : HubState) : List SocketOp → HubState
  | [] => st
  | op :: rest => runTrace (step st op).1 rest

/-- Error taxonomy of the send-message route, named after the spec's §7
taxonomy; in the source the conversation branch and the group branch each
answer `403 Not authorized`, the missing-target case `404 Conversation not
found`, and a text message without content `400`. -/
inductive MsgError where
  | contentRequired
  | notAParticipant
  | notAMember
  | targetNotFound
deriving DecidableEq

/-- Recipient determination of `POST /api/conversations/:id/messages`:
the id is looked up as a two-party conversation first; if found, the single
other participant is the recipient (403 when the sender is neither
participant); otherwise it is looked up as a group and the recipients are
all members except the sender (403 when the sender is not a member);
otherwise 404.  The `Bool` is the route's `isConversation` flag. -/
def resolveRecipients (st : HubState) (targetId senderId : String) :
    Except MsgError (Bool × List String) :=
  match mapGet st.conversations targetId with
  | some conversation =>
    if conversation.participant1Id ≠ senderId ∧ conversation.participant2Id ≠ senderId then
      Except.error MsgError.notAParticipant
    else
      Except.ok (true,
        [if conversation.participant1Id = senderId then conversation.participant2Id
         else conversation.participant1Id])
  | none =>
    match mapGet st.groups targetId with
    | some group =>
      if ¬ senderId ∈ group.memberIds then Except.error MsgError.notAMember
      else Except.ok (false, group.memberIds.filter fun m => m ≠ senderId)
    | none => Except.error MsgError.targetNotFound

/-- The send-message route: validates the content, determines the
recipients, creates the message, and fans the `newMessage` event out to each
recipient's live socket. -/
def sendMessage (st : HubState) (targetId senderId content : String) :
    Except MsgError (Message × List Emission) :=
  if content = "" then Except.error MsgError.contentRequired
  else
    match resolveRecipients st targetId senderId with
    | Except.error e => Except.error e
    | Except.ok (isConversation, recipientIds) =>
      let message : Message :=
        { conversationId := if isConversation then some targetId else none,
          groupId := if isConversation then none else some targetId,
          senderId := senderId,
          content := content }
      Except.ok (message, fanOut st.userSockets recipientIds (SEvent.newMessage message))

/-- Emissions produced by a send-message call (empty when the route
errors). -/
def sentEmissions (st : HubState) (targetId senderId content : String) : List Emission :=
  match sendMessage st targetId senderId content with
  | Except.ok (_, emissions) => emissions
  | Except.error _ => []

/-- Number of deliveries addressed to recipient `r` in an emission list. -/
def countTo : List Emission → String → Nat
  | [], _ => 0
  | Emission.deliver rid _ _ :: rest, r => (if rid = r then 1 else 0) + countTo rest r
  | Emission.broadcastExcept _ _ :: rest, r => countTo rest r

/-- Embedding of `broadcastTyping` in `server/routes.ts`: sends the typing
payload to every connected client whose userId differs from the payload's
`userId`. -/
def broadcastTyping (connectedClients : List (String × String))
    (conversationId userId : String) (isTyping : Bool) : List Emission :=
  connectedClients.filterMap fun client =>
    if client.1 ≠ userId then
      some (Emission.deliver client.1 client.2 (SEvent.typingEv userId conversationId isTyping))
    else none

/-- Embedding of the `typing` handler in `server/routes.ts`:
`socket.on('typing', (data) => broadcastTyping(data.conversationId,
data.userId, data.isTyping))`.  The handler never consults the connection's
own authentication state, which is why `senderSocketId` is unused. -/
def routesOnTyping (connectedClients : List (String × String)) (senderSocketId : String)
    (dataConversationId dataUserId : String) (dataIsTyping : Bool) : List Emission :=
  broadcastTyping connectedClients dataConversationId dataUserId dataIsTyping

/-- Errors thrown by the group model (`server/models/Group.ts`). -/
inductive GroupErr where
  | groupNotFound
  | creatorCannotBeRemoved
  | onlyCreatorCanDelete
deriving DecidableEq

/-- Mongo `$addToSet ... $each`: appends each new id not already present. -/
def addToSet (memberIds : List String) (newIds : List String) : List String :=
  newIds.foldl (fun acc m => if m ∈ acc then acc else acc ++ [m]) memberIds

/-- Mutating operations of the group model. -/
inductive GroupOp where
  | create (groupId creatorId : String) (memberIds : List String)
  | addMembers (groupId : String) (newIds : List String)
  | removeMember (groupId memberId : String)
  | deleteGroup (groupId requesterId : String)
deriving DecidableEq

/-- One operation of the group model against the groups collection,
returning the updated collection and the thrown error, if any (an error
leaves the collection unchanged).  `create` appends the creator to
`memberIds` when absent; `addMembers` uses `$addToSet`; `removeMember`
throws `Creator cannot be removed` when the member to remove is the creator
and otherwise `$pull`s the member; `deleteGroup` requires the requester to
be the creator. -/
def groupStep (store : List (String × Group)) (op : GroupOp) :
    List (String × Group) × Option GroupErr :=
  match op with
  | GroupOp.create gid creatorId memberIds =>
    let memberIds' := if creatorId ∈ memberIds then memberIds else memberIds ++ [creatorId]
    (mapSet store gid ⟨creatorId, memberIds'⟩, none)
  | GroupOp.addMembers gid newIds =>
    match mapGet store gid with
    | none => (store, none)
    | some g => (mapSet store gid ⟨g.creatorId, addToSet g.memberIds newIds⟩, none)
  | GroupOp.removeMember gid memberId =>
    match mapGet store gid with
    | none => (store, some GroupErr.groupNotFound)
    | some g =>
      if g.creatorId = memberId then (store, some GroupErr.creatorCannotBeRemoved)
      else (mapSet store gid ⟨g.creatorId, g.memberIds.filter fun m => m ≠ memberId⟩, none)
  | GroupOp.deleteGroup gid requesterId =>
    match mapGet store gid with
    | none => (store, some GroupErr.groupNotFound)
    | some g =>
      if g.creatorId ≠ requesterId then (store, some GroupErr.onlyCreatorCanDelete)
      else (mapDelete store gid, none)

/-- Invariant of the groups collection: every stored group's creator is a
member. -/
def creatorInv (store : List (String × Group)) : Prop :=
  ∀ p ∈ store, p.2.creatorId ∈ p.2.memberIds

/-- Invariant tying presence to the registry: registry keys are unique,
user keys are unique, and every persisted user record's `isOnline` equals
registry membership while its `lastSeen` never exceeds the clock. -/
def hubInv (st : HubState) : Prop :=
  (keysOf st.userSockets).Nodup ∧
  (keysOf st.users).Nodup ∧
  ∀ p ∈ st.users,
    p.2.isOnline = (mapGet st.userSockets p.1).isSome ∧ p.2.lastSeen ≤ st.clock

theorem onTyping_fst (st : HubState) (sid cid : String) (t : Bool) :
    (onTyping st sid cid t).1 = st := by
  unfold onTyping
  cases mapGet st.conns sid with
  | none => rfl
  | some c => cases c with
    | none => rfl
    | some uid => rfl

theorem onStopTyping_fst (st : HubState) (sid cid : String) :
    (onStopTyping st sid cid).1 = st := by
  unfold onStopTyping
  cases mapGet st.conns sid with
  | none => rfl
  | some c => cases c with
    | none => rfl
    | some uid => rfl

theorem onMessageRead_fst (st : HubState) (sid mid cid : String) :
    (onMessageRead st sid mid cid).1 = st := by
  unfold onMessageRead
  cases mapGet st.conns sid with
  | none => rfl
  | some c => cases c with
    | none => rfl
    | some uid => rfl

theorem step_connect (st : HubState) (sid : String) :
    (step st (SocketOp.connect sid)).1 =
      { st with conns := mapSet st.conns sid none, clock := st.clock + 1 } := rfl

theorem step_auth_closed {st : HubState} {sid : String} (uid : String)
    (hc : mapGet st.conns sid = none) :
    (step st (SocketOp.auth sid uid)).1 = { st with clock := st.clock + 1 } := by
  simp [step, onAuth, hc]

theorem step_auth_open {st : HubState} {sid : String} (uid : String) (c : Option String)
    (hc : mapGet st.conns sid = some c) :
    (step st (SocketOp.auth sid uid)).1 =
      { st with
          conns := mapSet st.conns sid (some uid),
          userSockets := mapSet st.userSockets uid sid,
          users := updateUserOnlineStatus st.users uid true st.clock,
          clock := st.clock + 1 } := by
  simp [step, onAuth, hc]

theorem step_disconnect_unknown {st : HubState} {sid : String}
    (hc : mapGet st.conns sid = none) :
    (step st (SocketOp.disconnect sid)).1 = { st with clock := st.clock + 1 } := by
  simp [step, onDisconnect, hc]

theorem step_disconnect_pending {st : HubState} {sid : String}
    (hc : mapGet st.conns sid = some none) :
    (step st (SocketOp.disconnect sid)).1 =
      { st with conns := mapDelete st.conns sid, clock := st.clock + 1 } := by
  simp [step, onDisconnect, hc]

theorem step_disconnect_active {st : HubState} {sid uid : String}
    (hc : mapGet st.conns sid = some (some uid)) :
    (step st (SocketOp.disconnect sid)).1 =
      { st with
          conns := mapDelete st.conns sid,
          userSockets := mapDelete st.userSockets uid,
          users := updateUserOnlineStatus st.users uid false st.clock,
          clock := st.clock + 1 } := by
  simp [step, onDisconnect, hc]

theorem step_typing_fst (st : HubState) (sid cid : String) (t : Bool) :
    (step st (SocketOp.typing sid cid t)).1 = { st with clock := st.clock + 1 } := by
  show { (onTyping st sid cid t).1 with clock := st.clock + 1 } = _
  rw [onTyping_fst]

theorem step_stopTyping_fst (st : HubState) (sid cid : String) :
    (step st (SocketOp.stopTyping sid cid)).1 = { st with clock := st.clock + 1 } := by
  show { (onStopTyping st sid cid).1 with clock := st.clock + 1 } = _
  rw [onStopTyping_fst]

theorem step_messageRead_fst (st : HubState) (sid mid cid : String) :
    (step st (SocketOp.messageRead sid mid cid)).1 = { st with clock := st.clock + 1 } := by
  show { (onMessageRead st sid mid cid).1 with clock := st.clock + 1 } = _
  rw [onMessageRead_fst]

theorem nodup_keysOf_updateStatus {users : List (String × UserRecord)} (uid : String)
    (b : Bool) (now : Nat) (h : (keysOf users).Nodup) :
    (keysOf (updateUserOnlineStatus users uid b now)).Nodup := by
  unfold updateUserOnlineStatus
  cases mapGet users uid with
  | none => exact h
  | some _ => exact nodup_keysOf_mapSet _ _ h

theorem updateUserOnlineStatus_get_self {users : List (String × UserRecord)}
    {uid : String} {rec : UserRecord} (b : Bool) (now : Nat)
    (h : mapGet users uid = some rec) :
    mapGet (updateUserOnlineStatus users uid b now) uid = some ⟨b, now⟩ := by
  unfold updateUserOnlineStatus
  rw [h]
  exact mapGet_mapSet_self _ _ _

theorem step_nodup (st : HubState) (op : SocketOp)
    (h : (keysOf st.userSockets).Nodup) :
    (keysOf (step st op).1.userSockets).Nodup := by
  cases op with
  | connect sid => rw [step_connect]; exact h
  | auth sid uid =>
    cases hc : mapGet st.conns sid with
    | none => rw [step_auth_closed uid hc]; exact h
    | some c => rw [step_auth_open uid c hc]; exact nodup_keysOf_mapSet _ _ h
  | disconnect sid =>
    cases hc : mapGet st.conns sid with
    | none => rw [step_disconnect_unknown hc]; exact h
    | some c =>
      cases c with
      | none => rw [step_disconnect_pending hc]; exact h
      | some uid => rw [step_disconnect_active hc]; exact nodup_keysOf_mapDelete _ h
  | typing sid cid t => rw [step_typing_fst]; exact h
  | stopTyping sid cid => rw [step_stopTyping_fst]; exact h
  | messageRead sid mid cid => rw [step_messageRead_fst]; exact h

theorem hubInv_of_fields (st st' : HubState)
    (hus : st'.userSockets = st.userSockets) (hu : st'.users = st.users)
    (hcl : st.clock ≤ st'.clock) (h : hubInv st) : hubInv st' := by
  obtain ⟨hN, hU, hC⟩ := h
  refine ⟨by rw [hus]; exact hN, by rw [hu]; exact hU, ?_⟩
  intro p hp
  rw [hu] at hp
  rw [hus]
  exact ⟨(hC p hp).1, le_trans (hC p hp).2 hcl⟩

theorem hubInv_step (st : HubState) (op : SocketOp) (h : hubInv st) :
    hubInv (step st op).1 := by
  obtain ⟨hN, hU, hC⟩ := h
  cases op with
  | connect sid =>
    rw [step_connect]
    exact hubInv_of_fields st _ rfl rfl (Nat.le_succ _) ⟨hN, hU, hC⟩
  | auth sid uid =>
    cases hc : mapGet st.conns sid with
    | none =>
      rw [step_auth_closed uid hc]
      exact hubInv_of_fields st _ rfl rfl (Nat.le_succ _) ⟨hN, hU, hC⟩
    | some c =>
      rw [step_auth_open uid c hc]
      refine ⟨nodup_keysOf_mapSet _ _ hN, nodup_keysOf_updateStatus _ _ _ hU, ?_⟩
      intro p hp
      cases hu : mapGet st.users uid with
      | none =>
        simp only [updateUserOnlineStatus, hu] at hp
        have hp1 : p.1 ≠ uid := by
          intro hh
          have hmg := mem_nodup_mapGet hU hp
          rw [hh, hu] at hmg
          exact Option.noConfusion hmg
        constructor
        · rw [mapGet_mapSet_ne _ _ (Ne.symm hp1)]
          exact (hC p hp).1
        · exact le_trans (hC p hp).2 (Nat.le_succ _)
      | some rec0 =>
        simp only [updateUserOnlineStatus, hu] at hp
        rcases mem_mapSet_nodup hU hp with h1 | h1
        · rw [h1]
          refine ⟨?_, Nat.le_succ _⟩
          rw [mapGet_mapSet_self]
          rfl
        · constructor
          · rw [mapGet_mapSet_ne _ _ (Ne.symm h1.2)]
            exact (hC p h1.1).1
          · exact le_trans (hC p h1.1).2 (Nat.le_succ _)
  | disconnect sid =>
    cases hc : mapGet st.conns sid with
    | none =>
      rw [step_disconnect_unknown hc]
      exact hubInv_of_fields st _ rfl rfl (Nat.le_succ _) ⟨hN, hU, hC⟩
    | some c =>
      cases c with
      | none =>
        rw [step_disconnect_pending hc]
        exact hubInv_of_fields st _ rfl rfl (Nat.le_succ _) ⟨hN, hU, hC⟩
      | some uid =>
        rw [step_disconnect_active hc]
        refine ⟨nodup_keysOf_mapDelete _ hN, nodup_keysOf_updateStatus _ _ _ hU, ?_⟩
        intro p hp
        cases hu : mapGet st.users uid with
        | none =>
          simp only [updateUserOnlineStatus, hu] at hp
          have hp1 : p.1 ≠ uid := by
            intro hh
            have hmg := mem_nodup_mapGet hU hp
            rw [hh, hu] at hmg
            exact Option.noConfusion hmg
          constructor
          · rw [mapGet_mapDelete_ne (Ne.symm hp1) hN]
            exact (hC p hp).1
          · exact le_trans (hC p hp).2 (Nat.le_succ _)
        | some rec0 =>
          simp only [updateUserOnlineStatus, hu] at hp
          rcases mem_mapSet_nodup hU hp with h1 | h1
          · rw [h1]
            refine ⟨?_, Nat.le_succ _⟩
            rw [mapGet_mapDelete_self _ hN]
            rfl
          · constructor
            · rw [mapGet_mapDelete_ne (Ne.symm h1.2) hN]
              exact (hC p h1.1).1
            · exact le_trans (hC p h1.1).2 (Nat.le_succ _)
  | typing sid cid t =>
    rw [step_typing_fst]
    exact hubInv_of_fields st _ rfl rfl (Nat.le_succ _) ⟨hN, hU, hC⟩
  | stopTyping sid cid =>
    rw [step_stopTyping_fst]
    exact hubInv_of_fields st _ rfl rfl (Nat.le_succ _) ⟨hN, hU, hC⟩
  | messageRead sid mid cid =>
    rw [step_messageRead_fst]
    exact hubInv_of_fields st _ rfl rfl (Nat.le_succ _) ⟨hN, hU, hC⟩

theorem fanOut_cons_some {us : List (String × String)} {a sid : String}
    (rs : List String) (ev : SEvent) (h : mapGet us a = some sid) :
    fanOut us (a :: rs) ev = Emission.deliver a sid ev :: fanOut us rs ev := by
  simp [fanOut, List.filterMap_cons, h]

theorem fanOut_cons_none {us : List (String × String)} {a : String}
    (rs : List String) (ev : SEvent) (h : mapGet us a = none) :
    fanOut us (a :: rs) ev = fanOut us rs ev := by
  simp [fanOut, List.filterMap_cons, h]

theorem countTo_fanOut_not_mem {us : List (String × String)} {rs : List String}
    {ev : SEvent} {r : String} (h : r ∉ rs) : countTo (fanOut us rs ev) r = 0 := by
  induction rs with
  | nil => rfl
  | cons a rs ih =>
    have har : a ≠ r := fun hh => h (hh ▸ List.mem_cons_self _ _)
    have hr : r ∉ rs := fun hh => h (List.mem_cons_of_mem _ hh)
    cases hga : mapGet us a with
    | none =>
      rw [fanOut_cons_none rs ev hga]
      exact ih hr
    | some sid =>
      rw [fanOut_cons_some rs ev hga]
      simp only [countTo, if_neg har, Nat.zero_add]
      exact ih hr

theorem countTo_fanOut_nodup_mem {us : List (String × String)} {rs : List String}
    {ev : SEvent} {r sid : String} (hnd : rs.Nodup) (hmem : r ∈ rs)
    (h : mapGet us r = some sid) : countTo (fanOut us rs ev) r = 1 := by
  induction rs with
  | nil => cases hmem
  | cons a rs ih =>
    rcases List.mem_cons.mp hmem with h1 | h1
    · subst h1
      rw [fanOut_cons_some rs ev h]
      simp [countTo, countTo_fanOut_not_mem (List.nodup_cons.mp hnd).1]
    · have ha : a ≠ r := by
        intro hh
        subst hh
        exact (List.nodup_cons.mp hnd).1 h1
      cases hga : mapGet us a with
      | none =>
        rw [fanOut_cons_none rs ev hga]
        exact ih (List.nodup_cons.mp hnd).2 h1
      | some s2 =>
        rw [fanOut_cons_some rs ev hga]
        simp only [countTo, if_neg ha, Nat.zero_add]
        exact ih (List.nodup_cons.mp hnd).2 h1

theorem length_filter_ne_add_one {l : List String} {a : String} (hnd : l.Nodup)
    (hmem : a ∈ l) : (l.filter fun m => m ≠ a).length + 1 = l.length := by
  induction l with
  | nil => cases hmem
  | cons x l ih =>
    rcases List.mem_cons.mp hmem with h1 | h1
    · subst h1
      have hx : a ∉ l := (List.nodup_cons.mp hnd).1
      have hfl : l.filter (fun m => m ≠ a) = l := by
        apply List.filter_eq_self.mpr
        intro b hb
        simp only [decide_eq_true_eq]
        intro hh
        exact hx (hh ▸ hb)
      have hda : (decide (a ≠ a)) = false := by simp
      rw [List.filter_cons, hda]
      rw [if_neg (by simp), hfl]
      simp
    · have hxa : x ≠ a := fun hh => (List.nodup_cons.mp hnd).1 (hh ▸ h1)
      have ihh := ih (List.nodup_cons.mp hnd).2 h1
      simp only [List.filter_cons, decide_eq_true_eq]
      rw [if_pos hxa]
      simp only [List.length_cons]
      omega

theorem mem_mapSet_weak {α : Type} {m : List (String × α)} {k : String} {v : α}
    {p : String × α} (h : p ∈ mapSet m k v) : p = (k, v) ∨ p ∈ m := by
  induction m with
  | nil =>
    simp [mapSet] at h
    exact Or.inl h
  | cons hd tl ih =>
    obtain ⟨x, y⟩ := hd
    by_cases hxk : x = k
    · subst hxk
      rw [mapSet_cons_eq] at h
      rcases List.mem_cons.mp h with h1 | h1
      · exact Or.inl h1
      · exact Or.inr (List.mem_cons_of_mem _ h1)
    · rw [mapSet_cons_ne y v tl hxk] at h
      rcases List.mem_cons.mp h with h1 | h1
      · exact Or.inr (by rw [h1]; exact List.mem_cons_self _ _)
      · rcases ih h1 with h2 | h2
        · exact Or.inl h2
        · exact Or.inr (List.mem_cons_of_mem _ h2)

theorem addToSet_cons (l : List String) (n : String) (ns : List String) :
    addToSet l (n :: ns) = addToSet (if n ∈ l then l else l ++ [n]) ns := rfl

theorem mem_addToSet_left {l : List String} {a : String} (new : List String)
    (h : a ∈ l) : a ∈ addToSet l new := by
  induction new generalizing l with
  | nil => exact h
  | cons n ns ih =>
    rw [addToSet_cons]
    apply ih
    by_cases hn : n ∈ l
    · rw [if_pos hn]; exact h
    · rw [if_neg hn]; exact List.mem_append_left _ h

/-- Two users known to the persistence layer, both offline, before any
socket activity. -/
def usersInit : List (String × UserRecord) := [("u", ⟨false, 0⟩), ("w", ⟨false, 0⟩)]

/-- Initial hub state for the stale-close scenario. -/
def hubC1 : HubState :=
  { conns := [], userSockets := [], users := usersInit,
    conversations := [], groups := [], clock := 0 }

/-- Socket `s1` authenticates as `"u"` and is then superseded by socket `s2`
authenticating as the same user. -/
def traceC1 : List SocketOp :=
  [SocketOp.connect "s1", SocketOp.auth "s1" "u",
   SocketOp.connect "s2", SocketOp.auth "s2" "u"]

/-- Hub state after `traceC1`: the registry maps `"u"` to `"s2"` while the
superseded socket `"s1"` is still open. -/
def stC1 : HubState := runTrace hubC1 traceC1

/-- Shared concrete hub state used by the witnesses: socket `s1` is open and
unauthenticated, socket `s2` is active as user `"a"`, user `"b"` has a live
registry entry, and one conversation and one group exist. -/
def stW : HubState :=
  { conns := [("s1", none), ("s2", some "a")],
    userSockets := [("a", "s2"), ("b", "sb")],
    users := [("u", ⟨false, 0⟩), ("a", ⟨true, 1⟩)],
    conversations := [("c1", ⟨"a", "b"⟩)],
    groups := [("g1", ⟨"a", ["a", "b", "c"]⟩)],
    clock := 2 }

/-- Concrete groups collection used by the group-model witness. -/
def gStoreW : List (String × Group) := [("g1", ⟨"a", ["a", "b"]⟩)]

/-- C1: evaluated on the MongoDB server file's handlers, the stale-close
scenario violates the claim: after socket `s1` authenticates as `"u"` and is
superseded by socket `s2` for the same user, the registry maps `"u"` to
`"s2"` and both sockets are open — yet the `disconnect` of the superseded
socket `s1` broadcasts `userStatus { isOnline: false }` for `"u"` and
persists `isOnline := false` (the handler runs
`userSockets.delete(userId); updateUserOnlineStatus(userId, false)` keyed by
its closure `userId`, with no check that this socket is still the registered
one). -/
theorem stale_close_flips_presence_offline :
    mapGet stC1.userSockets "u" = some "s2" ∧
    mapGet stC1.conns "s1" = some (some "u") ∧
    mapGet stC1.conns "s2" = some (some "u") ∧
    (step stC1 (SocketOp.disconnect "s1")).2 =
      [Emission.broadcastExcept "s1" (SEvent.userStatus "u" false 4)] ∧
    mapGet (step stC1 (SocketOp.disconnect "s1")).1.users "u" = some ⟨false, 4⟩ := by
  decide

/-- C2: evaluated on the MongoDB server file's handlers, deregistering the
superseded handle `s1` is not a no-op: before the disconnect the registry
entry for `"u"` is the newer handle `"s2"`, and after `s1`'s disconnect that
newer entry is gone (`userSockets.delete(userId)` removes whatever entry the
userId currently has). -/
theorem stale_close_removes_newer_entry :
    mapGet stC1.userSockets "u" = some "s2" ∧
    mapGet (step stC1 (SocketOp.disconnect "s1")).1.userSockets "u" = none := by
  decide

theorem runTrace_nodup (ops : List SocketOp) :
    ∀ st : HubState, (keysOf st.userSockets).Nodup →
      (keysOf (runTrace st ops).userSockets).Nodup := by
  induction ops with
  | nil => intro st h; exact h
  | cons op rest ih => intro st h; exact ih _ (step_nodup st op h)

/-- C3: for every sequence of socket operations, the connection registry
keeps at most one entry per userId (its key list stays duplicate-free at
every point), and a second `auth` for a userId replaces the prior entry:
immediately after the step the registry maps that userId to the new
socket. -/
theorem registry_at_most_one_per_user (st : HubState) (ops : List SocketOp)
    (h : (keysOf st.userSockets).Nodup) :
    (keysOf (runTrace st ops).userSockets).Nodup ∧
    ∀ sid uid c, mapGet st.conns sid = some c →
      mapGet (step st (SocketOp.auth sid uid)).1.userSockets uid = some sid := by
  refine ⟨runTrace_nodup ops st h, ?_⟩
  intro sid uid c hc
  rw [step_auth_open uid c hc]
  exact mapGet_mapSet_self _ _ _

/-- C3 witness: the registry keys stay duplicate-free on a concrete
trace. -/
theorem registry_at_most_one_per_user_witness :
    (keysOf (runTrace stW [SocketOp.connect "s3", SocketOp.auth "s3" "a"]).userSockets).Nodup :=
  (registry_at_most_one_per_user stW [SocketOp.connect "s3", SocketOp.auth "s3" "a"]
    (by decide)).1

/-- C4: every step preserves the invariant that each persisted user record's
`isOnline` equals registry membership (so it holds immediately after every
registry mutation), and on both the online transition (`auth`) and the
offline transition (`disconnect`) the affected user's record is set to the
transition time `st.clock`, which is at least the record's previous
`lastSeen` (the timestamp advances). -/
theorem presence_matches_registry (st : HubState) (op : SocketOp) (h : hubInv st) :
    hubInv (step st op).1 ∧
    (∀ sid uid c rec, op = SocketOp.auth sid uid → mapGet st.conns sid = some c →
      mapGet st.users uid = some rec →
      mapGet (step st op).1.users uid = some ⟨true, st.clock⟩ ∧
      rec.lastSeen ≤ st.clock) ∧
    (∀ sid uid rec, op = SocketOp.disconnect sid →
      mapGet st.conns sid = some (some uid) →
      mapGet st.users uid = some rec →
      mapGet (step st op).1.users uid = some ⟨false, st.clock⟩ ∧
      rec.lastSeen ≤ st.clock) := by
  refine ⟨hubInv_step st op h, ?_, ?_⟩
  · intro sid uid c rec hop hc hrec
    subst hop
    rw [step_auth_open uid c hc]
    refine ⟨updateUserOnlineStatus_get_self true st.clock hrec, ?_⟩
    exact (h.2.2 (uid, rec) (mapGet_eq_some_mem hrec)).2
  · intro sid uid rec hop hc hrec
    subst hop
    rw [step_disconnect_active hc]
    refine ⟨updateUserOnlineStatus_get_self false st.clock hrec, ?_⟩
    exact (h.2.2 (uid, rec) (mapGet_eq_some_mem hrec)).2

/-- C4 witness: authenticating `"u"` on the open socket `s1` sets the
persisted record to online with the transition time. -/
theorem presence_matches_registry_witness :
    mapGet (step stW (SocketOp.auth "s1" "u")).1.users "u" = some ⟨true, 2⟩ :=
  ((presence_matches_registry stW (SocketOp.auth "s1" "u") (by unfold hubInv; decide)).2.1
    "s1" "u" none ⟨false, 0⟩ rfl (by decide) (by decide)).1

/-- C5: when the target id is a group (not a conversation) with
duplicate-free members and the sender is a member, the resolved recipient
list is exactly the members other than the sender (it has `N - 1` elements
and contains precisely the other members); every other member with a live
registry entry receives exactly one `newMessage` delivery, the sender
receives none; and when the sender is not a member the route fails with the
group-branch 403 (`NotAMember`) and produces no message or delivery. -/
theorem group_message_fanout (st : HubState) (tid sender content : String) (g : Group)
    (hconv : mapGet st.conversations tid = none)
    (hg : mapGet st.groups tid = some g)
    (hnd : g.memberIds.Nodup)
    (hc : content ≠ "") :
    (sender ∈ g.memberIds →
      resolveRecipients st tid sender =
        Except.ok (false, g.memberIds.filter fun m => m ≠ sender) ∧
      (g.memberIds.filter fun m => m ≠ sender).length + 1 = g.memberIds.length ∧
      (∀ r, r ∈ (g.memberIds.filter fun m => m ≠ sender) ↔
        (r ∈ g.memberIds ∧ r ≠ sender)) ∧
      (∀ r sid, r ∈ g.memberIds → r ≠ sender → mapGet st.userSockets r = some sid →
        countTo (sentEmissions st tid sender content) r = 1) ∧
      countTo (sentEmissions st tid sender content) sender = 0) ∧
    (sender ∉ g.memberIds →
      sendMessage st tid sender content = Except.error MsgError.notAMember) := by
  constructor
  · intro hmem
    have hres : resolveRecipients st tid sender =
        Except.ok (false, g.memberIds.filter fun m => m ≠ sender) := by
      simp [resolveRecipients, hconv, hg, hmem]
    have hemit : sentEmissions st tid sender content =
        fanOut st.userSockets (g.memberIds.filter fun m => m ≠ sender)
          (SEvent.newMessage ⟨none, some tid, sender, content⟩) := by
      simp [sentEmissions, sendMessage, hres, hc]
    refine ⟨hres, length_filter_ne_add_one hnd hmem, ?_, ?_, ?_⟩
    · intro r
      simp [List.mem_filter]
    · intro r sid hr hrs hsid
      rw [hemit]
      exact countTo_fanOut_nodup_mem (hnd.filter _)
        (List.mem_filter.mpr ⟨hr, by simp [hrs]⟩) hsid
    · rw [hemit]
      exact countTo_fanOut_not_mem (by simp [List.mem_filter])
  · intro hnm
    simp [sendMessage, resolveRecipients, hconv, hg, hnm, hc]

/-- C5 witness: in the concrete state, member `"b"` of group `g1` receives
exactly one `newMessage` delivery when `"a"` sends. -/
theorem group_message_fanout_witness :
    countTo (sentEmissions stW "g1" "a" "hi") "b" = 1 :=
  (((group_message_fanout stW "g1" "a" "hi" ⟨"a", ["a", "b", "c"]⟩
      (by decide) (by decide) (by decide) (by decide)).1
    (by decide)).2.2.2.1) "b" "sb" (by decide) (by decide) (by decide)

/-- C6: when the target id is a two-party conversation with distinct
participants, resolving recipients for a participant sender yields exactly
the singleton of the other participant; the result is independent of the
group store (the conversation lookup is attempted first); and when the
sender is neither participant the route fails with the conversation-branch
403 (`NotAParticipant`), creating no message and delivering nothing. -/
theorem conversation_recipient_resolution (st : HubState)
    (tid sender content : String) (conv : Conversation)
    (hconv : mapGet st.conversations tid = some conv)
    (hne : conv.participant1Id ≠ conv.participant2Id)
    (hc : content ≠ "") :
    (sender = conv.participant1Id →
      resolveRecipients st tid sender = Except.ok (true, [conv.participant2Id])) ∧
    (sender = conv.participant2Id →
      resolveRecipients st tid sender = Except.ok (true, [conv.participant1Id])) ∧
    (∀ gs, resolveRecipients { st with groups := gs } tid sender =
      resolveRecipients st tid sender) ∧
    (sender ≠ conv.participant1Id → sender ≠ conv.participant2Id →
      sendMessage st tid sender content = Except.error MsgError.notAParticipant) := by
  refine ⟨?_, ?_, ?_, ?_⟩
  · intro h1
    subst h1
    simp [resolveRecipients, hconv]
  · intro h2
    subst h2
    simp [resolveRecipients, hconv, hne]
  · intro gs
    simp [resolveRecipients, hconv]
  · intro hn1 hn2
    have hq1 : conv.participant1Id ≠ sender := Ne.symm hn1
    have hq2 : conv.participant2Id ≠ sender := Ne.symm hn2
    simp [sendMessage, resolveRecipients, hconv, hc, hq1, hq2]

/-- C6 witness: in the concrete state the conversation `c1` between `"a"`
and `"b"` resolves, for sender `"a"`, to exactly `["b"]`. -/
theorem conversation_recipient_resolution_witness :
    resolveRecipients stW "c1" "a" = Except.ok (true, ["b"]) :=
  ((conversation_recipient_resolution stW "c1" "a" "x" ⟨"a", "b"⟩
    (by decide) (by decide) (by decide)).1) rfl

/-- C7: fanning out to a recipient with no registry entry delivers nothing
to that recipient and does not disturb the other recipients: the fan-out
equals the fan-out over the recipient list with that id removed (and the
fan-out is a total function, so no error reaches the caller). -/
theorem route_skips_offline_recipient (us : List (String × String))
    (rs : List String) (ev : SEvent) (r : String) (h : mapGet us r = none) :
    countTo (fanOut us rs ev) r = 0 ∧
    fanOut us rs ev = fanOut us (rs.filter fun x => x ≠ r) ev := by
  induction rs with
  | nil => exact ⟨rfl, rfl⟩
  | cons a rs ih =>
    by_cases har : a = r
    · subst har
      rw [fanOut_cons_none rs ev h]
      refine ⟨ih.1, ?_⟩
      rw [ih.2]
      have hda : (decide (a ≠ a)) = false := by simp
      rw [List.filter_cons, hda, if_neg (by simp)]
    · cases hga : mapGet us a with
      | none =>
        rw [fanOut_cons_none rs ev hga]
        refine ⟨ih.1, ?_⟩
        rw [ih.2]
        have hda : (decide (a ≠ r)) = true := by simp [har]
        rw [List.filter_cons, hda, if_pos rfl, fanOut_cons_none _ ev hga]
      | some sid =>
        rw [fanOut_cons_some rs ev hga]
        constructor
        · simp only [countTo, if_neg har, Nat.zero_add]
          exact ih.1
        · rw [ih.2]
          have hda : (decide (a ≠ r)) = true := by simp [har]
          rw [List.filter_cons, hda, if_pos rfl, fanOut_cons_some _ ev hga]

/-- C7 witness: recipient `"u"` has no registry entry in the concrete
state, so the fan-out delivers nothing to `"u"`. -/
theorem route_skips_offline_recipient_witness :
    countTo (fanOut stW.userSockets ["u", "b"] (SEvent.typingEv "a" "c1" true)) "u" = 0 :=
  (route_skips_offline_recipient stW.userSockets ["u", "b"]
    (SEvent.typingEv "a" "c1" true) "u" (by decide)).1

/-- C8: the `stopTyping` handler is observably equal to the `typing` handler
invoked with `isTyping = false`: for every hub state, socket, and
conversation id they return the same successor state and the same emission
list (both drop the event when the connection is unauthenticated, both
resolve the same recipients from the same lookups, and both emit `typing`
events with `isTyping = false`). -/
theorem stopTyping_equiv_typing_false (st : HubState) (sid conversationId : String) :
    onStopTyping st sid conversationId = onTyping st sid conversationId false := by
  unfold onStopTyping onTyping
  cases mapGet st.conns sid with
  | none => rfl
  | some c => cases c with
    | none => rfl
    | some uid => rfl

/-- C9 counterexample: in `server/routes.ts` the `typing` handler performs
no authentication check, so a typing event arriving on socket `"s0"`, which
is not the socket of any registered client (a `Pending` connection), is
still broadcast: connected client `"b"` receives a delivery, contradicting
the claim that such events are silently dropped with no delivery. -/
theorem routes_typing_from_pending_delivers :
    (([("b", "sb")] : List (String × String)).all fun client => client.2 != "s0") = true ∧
    routesOnTyping [("b", "sb")] "s0" "c1" "a" true =
      [Emission.deliver "b" "sb" (SEvent.typingEv "a" "c1" true)] ∧
    routesOnTyping [("b", "sb")] "s0" "c1" "a" true ≠ [] := by
  decide

/-- C9 amended: in the MongoDB server file's handlers the claim holds —
`typing`, `stopTyping`, and `messageRead` events on a connection whose
`userId` closure is still `null` are silently dropped: no emission is
produced, the state (including the set of open connections) is unchanged,
and no error is raised; `server/routes.ts`'s `typing` handler, however,
broadcasts the payload's claimed userId's typing without checking this
connection's authentication state. -/
theorem pending_socket_events_dropped (st : HubState) (sid cid mid : String) (t : Bool)
    (h : mapGet st.conns sid = some none) :
    onTyping st sid cid t = (st, []) ∧
    onStopTyping st sid cid = (st, []) ∧
    onMessageRead st sid mid cid = (st, []) := by
  refine ⟨?_, ?_, ?_⟩ <;> simp [onTyping, onStopTyping, onMessageRead, h]

/-- C9 witness: the unauthenticated open socket `s1` of the concrete state
has its typing event dropped. -/
theorem pending_socket_events_dropped_witness :
    onTyping stW "s1" "c1" true = (stW, []) :=
  (pending_socket_events_dropped stW "s1" "c1" "m1" true (by decide)).1

/-- C10: every group-model operation preserves the invariant that each
stored group's creator is one of its members; `createGroup` stores the
group with the creator appended to `memberIds` when absent (so the creator
is always a member of the created group); and `removeMemberFromGroup`
applied to the creator fails with `Creator cannot be removed`, leaving the
store unchanged. -/
theorem creator_always_member (store : List (String × Group)) (op : GroupOp)
    (h : creatorInv store) :
    creatorInv (groupStep store op).1 ∧
    (∀ gid cid mids, op = GroupOp.create gid cid mids →
      mapGet (groupStep store op).1 gid =
        some ⟨cid, if cid ∈ mids then mids else mids ++ [cid]⟩ ∧
      cid ∈ (if cid ∈ mids then mids else mids ++ [cid])) ∧
    (∀ gid g, op = GroupOp.removeMember gid g.creatorId → mapGet store gid = some g →
      groupStep store op = (store, some GroupErr.creatorCannotBeRemoved)) := by
  refine ⟨?_, ?_, ?_⟩
  · cases op with
    | create gid cid mids =>
      intro p hp
      simp only [groupStep] at hp
      rcases mem_mapSet_weak hp with h1 | h1
      · rw [h1]
        by_cases hcm : cid ∈ mids
        · simp [hcm]
        · simp [hcm]
      · exact h p h1
    | addMembers gid newIds =>
      cases hg : mapGet store gid with
      | none =>
        simp only [groupStep, hg]
        exact h
      | some g =>
        simp only [groupStep, hg]
        intro p hp
        rcases mem_mapSet_weak hp with h1 | h1
        · rw [h1]
          exact mem_addToSet_left newIds (h (gid, g) (mapGet_eq_some_mem hg))
        · exact h p h1
    | removeMember gid mid =>
      cases hg : mapGet store gid with
      | none =>
        simp only [groupStep, hg]
        exact h
      | some g =>
        by_cases hcm : g.creatorId = mid
        · simp only [groupStep, hg, if_pos hcm]
          exact h
        · simp only [groupStep, hg, if_neg hcm]
          intro p hp
          rcases mem_mapSet_weak hp with h1 | h1
          · rw [h1]
            refine List.mem_filter.mpr ⟨h (gid, g) (mapGet_eq_some_mem hg), ?_⟩
            simp [hcm]
          · exact h p h1
    | deleteGroup gid req =>
      cases hg : mapGet store gid with
      | none =>
        simp only [groupStep, hg]
        exact h
      | some g =>
        by_cases hcr : g.creatorId ≠ req
        · simp only [groupStep, hg, if_pos hcr]
          exact h
        · simp only [groupStep, hg, if_neg hcr]
          intro p hp
          exact h p (mem_mapDelete hp)
  · intro gid cid mids hop
    subst hop
    constructor
    · simp only [groupStep]
      exact mapGet_mapSet_self _ _ _
    · by_cases hcm : cid ∈ mids
      · simp [hcm]
      · simp [hcm]
  · intro gid g hop hget
    subst hop
    simp [groupStep, hget]

/-- C10 witness: removing the creator `"a"` from group `g1` fails with
`Creator cannot be removed` and leaves the store unchanged. -/
theorem creator_always_member_witness :
    groupStep gStoreW (GroupOp.removeMember "g1" "a") =
      (gStoreW, some GroupErr.creatorCannotBeRemoved) :=
  (creator_always_member gStoreW (GroupOp.removeMember "g1" "a")
    (by unfold creatorInv; decide)).2.2 "g1" ⟨"a", ["a", "b"]⟩ rfl (by decide)

end ConnectChat
